import Mathlib

/-!
Verification of the role-allocation repository's parsing, role-selection,
orchestration and formatting core.

The Python sources are shallowly embedded as total Lean functions over
`List Char` (Python `str` values are sequences of Unicode code points, which
`List Char` models exactly; Python `len` is list length).  Python dicts are
modelled as insertion-ordered association lists with replace-in-place
update (`dinsert`), matching CPython 3.7+ semantics.  The external
`json.loads` call is modelled by an oracle parameter
`jloads : String → Option (List (String × Jval))`: `none` models
`json.JSONDecodeError` (the only exception the source catches there), and a
successful parse of a brace-delimited slice always yields a JSON object,
hence the field-list codomain.  The external LLM call is modelled by an
`Option String` outcome: `none` models the call raising, `some content`
models it returning `content`.
-/

/-- The character `LEFT CURLY BRACKET`. -/
def lbrace : Char := '\x7b'

/-- The character `RIGHT CURLY BRACKET`. -/
def rbrace : Char := '\x7d'

/-- Python `str.isspace` for the ASCII whitespace actually stripped by
`str.strip()` / matched by `\s`. -/
def pyIsSpace (c : Char) : Bool :=
  c = ' ' || c = '\t' || c = '\n' || c = '\r' || c = '\x0b' || c = '\x0c'

/-- Python `str.lstrip()`. -/
def pyLStrip (s : List Char) : List Char := s.dropWhile pyIsSpace

/-- Python `str.rstrip()`. -/
def pyRStrip (s : List Char) : List Char := (s.reverse.dropWhile pyIsSpace).reverse

/-- Python `str.strip()`. -/
def pyStrip (s : List Char) : List Char := pyRStrip (pyLStrip s)

/-- Python `str.split('\n')`. -/
def splitLines : List Char → List (List Char)
  | [] => [[]]
  | c :: r =>
      if c = '\n' then [] :: splitLines r
      else
        match splitLines r with
        | [] => [[c]]
        | s :: ss => (c :: s) :: ss

/-- Python `needle in haystack` substring containment. -/
def containsSub (needle : List Char) : List Char → Bool
  | [] => needle.isEmpty
  | c :: r => needle.isPrefixOf (c :: r) || containsSub needle r

/-- Python `haystack.startswith(needle)`. -/
def startsWithL (s pre : List Char) : Bool := pre.isPrefixOf s

/-- Python `haystack.endswith(needle)`. -/
def endsWithL (s suf : List Char) : Bool := suf.reverse.isPrefixOf s.reverse

/-- CPython dict assignment `d[k] = v`: replaces in place if the key exists,
appends at the end otherwise (insertion order preserved). -/
def dinsert {α : Type} (k : String) (v : α) : List (String × α) → List (String × α)
  | [] => [(k, v)]
  | (k', v') :: rest => if k' = k then (k, v) :: rest else (k', v') :: dinsert k v rest

/-- Dict lookup (first binding wins; dicts built by `dinsert` have unique keys). -/
def lookupD {α : Type} (k : String) : List (String × α) → Option α
  | [] => none
  | (k', v') :: rest => if k = k' then some v' else lookupD k rest

/-- Index of the first occurrence of `c` (length of the list if absent);
Python `str.find`. -/
def idxOfC (c : Char) : List Char → Nat
  | [] => 0
  | x :: r => if x = c then 0 else idxOfC c r + 1

/-- Sum of the task-list lengths of a role→tasks mapping,
Python `sum(len(tasks) for tasks in d.values())`. -/
def sumLens (d : List (String × List String)) : Nat :=
  d.foldl (fun a p => a + p.2.length) 0

/-- A JSON value, the codomain of the modelled `json.loads`. -/
inductive Jval where
  | jnull : Jval
  | jbool : Bool → Jval
  | jnum : Int → Jval
  | jstr : String → Jval
  | jarr : List Jval → Jval
  | jobj : List (String × Jval) → Jval
deriving Repr

/-- A role→tasks mapping viewed as the JSON object the Python code returns. -/
def mapToJval (d : List (String × List String)) : Jval :=
  Jval.jobj (d.map (fun p => (p.1, Jval.jarr (p.2.map Jval.jstr))))

/-- The twelve code points of the decoration character class
`[🎨⚡🤖☁️💾🎯🔍📊🛡️📱🌐]` used in `1.py` line 63 and `2.py` line 24
(the two-code-point emojis `☁️` and `🛡️` decompose inside a class into
their base characters plus `U+FE0F`). -/
def emojiCls : List Char :=
  ['🎨', '⚡', '🤖', '☁', '️', '💾', '🎯', '🔍', '📊', '🛡', '📱', '🌐']

/-- Membership in the task-marker class `[\d+\.\-\*•▶️✨🔧⭐🚀]` of `1.py` line 69. -/
def inTaskCls1 (c : Char) : Bool :=
  c.isDigit || ['+', '.', '-', '*', '•', '▶', '️', '✨', '🔧', '⭐', '🚀'].contains c

/-- The decoration class `[▶️✨🔧⭐🚀]` of `1.py` line 73. -/
def decCls1 : List Char := ['▶', '️', '✨', '🔧', '⭐', '🚀']

/-- Membership in the enumerator class `[-•*\d+\.\)]` of `2.py` line 31 and
`task_agent.py` line 36. -/
def inEnumCls (c : Char) : Bool :=
  c.isDigit || ['-', '•', '*', '+', '.', ')'].contains c

/-- The decoration class `[▶️✨🔧⭐🚀💡🎯🔥]` of `2.py` line 32. -/
def decCls2 : List Char := ['▶', '️', '✨', '🔧', '⭐', '🚀', '💡', '🎯', '🔥']

/-- One application of the anchored substitution `re.sub(r'^[cls]\s*', '', s)`:
remove a single leading class character together with the following
whitespace run. -/
def stripClassWs (cls : Char → Bool) (s : List Char) : List Char :=
  match s with
  | [] => []
  | c :: r => if cls c then r.dropWhile pyIsSpace else c :: r

/-- Scanner for the global substitution `re.sub(r'[cls]\s*', '', s)`.
The flag records whether the scanner is inside the `\s*` run following a
matched class character. -/
def subClassWsAux (cls : Char → Bool) : Bool → List Char → List Char
  | _, [] => []
  | false, c :: r =>
      if cls c then subClassWsAux cls true r else c :: subClassWsAux cls false r
  | true, c :: r =>
      if pyIsSpace c then subClassWsAux cls true r
      else if cls c then subClassWsAux cls true r
      else c :: subClassWsAux cls false r

/-- The global substitution `re.sub(r'[cls]\s*', '', s)`. -/
def subClassWs (cls : Char → Bool) (s : List Char) : List Char :=
  subClassWsAux cls false s

/-- Python `s.replace('**', '')` (and the global `re.sub(r'\*\*', '', s)`):
delete non-overlapping `**` occurrences left to right. -/
def removeStarStar : List Char → List Char
  | '*' :: '*' :: r => removeStarStar r
  | c :: r => c :: removeStarStar r
  | [] => []

/-- The tuple `('1.', '2.', ..., '8.')` of `1.py` line 55. -/
def headerEnum1 : List (List Char) :=
  [['1', '.'], ['2', '.'], ['3', '.'], ['4', '.'], ['5', '.'], ['6', '.'], ['7', '.'], ['8', '.']]

/-- `1.py` line 51: skip empty lines and lines starting with `=`, `-` or `*`. -/
def skipLine1 (l : List Char) : Bool :=
  l.isEmpty || startsWithL l ['='] || startsWithL l ['-'] || startsWithL l ['*']

/-- `1.py` line 55: a stripped line is a role header when it contains a colon
and does not start with one of `1.` … `8.`. -/
def isHeader1 (l : List Char) : Bool :=
  l.contains ':' && !(headerEnum1.any (fun p => p.isPrefixOf l))

/-- `1.py` lines 61-64: role-name extraction and cleaning. -/
def cleanRole1 (l : List Char) : List Char :=
  let r0 := pyStrip (l.takeWhile (fun c => c ≠ ':'))
  let r1 := stripClassWs (fun c => emojiCls.contains c) r0
  pyStrip (removeStarStar r1)

/-- `1.py` line 69: `re.match(r'^[\d+\.\-\*•▶️✨🔧⭐🚀]\s*(.+)', line)`, returning
`group(1)` on success.  (The class matches exactly one character.) -/
def taskMatch1 (l : List Char) : Option (List Char) :=
  match l with
  | [] => none
  | c :: r =>
      if inTaskCls1 c then
        let t := r.dropWhile pyIsSpace
        if t.isEmpty then none else some t
      else none

/-- `1.py` lines 71-73: strip the match, then remove one leading decoration
character with its whitespace. -/
def cleanTask1 (t : List Char) : List Char :=
  stripClassWs (fun c => decCls1.contains c) (pyStrip t)

/-- The line-classification loop of `SmartTaskParser.parse` (`1.py` lines 42-82):
a two-state scan with a current role and its accumulated tasks.  Python's
truthiness test `if current_role and current_tasks` is modelled by the
`r ≠ [] ∧ tasks ≠ []` guards (an empty role name is falsy). -/
def p1loop :
    List (List Char) → Option (List Char) → List String →
    List (String × List String) → List (String × List String)
  | [], cur, tasks, acc =>
      match cur with
      | some r => if r ≠ [] ∧ tasks ≠ [] then dinsert (String.mk r) tasks acc else acc
      | none => acc
  | line :: rest, cur, tasks, acc =>
      let l := pyStrip line
      if skipLine1 l then p1loop rest cur tasks acc
      else if isHeader1 l then
        let acc' :=
          match cur with
          | some r => if r ≠ [] ∧ tasks ≠ [] then dinsert (String.mk r) tasks acc else acc
          | none => acc
        p1loop rest (some (cleanRole1 l)) [] acc'
      else
        match taskMatch1 l with
        | some t0 =>
            match cur with
            | some r =>
                if r ≠ [] then
                  let t := cleanTask1 t0
                  if 15 < t.length then p1loop rest cur (tasks ++ [String.mk t]) acc
                  else p1loop rest cur tasks acc
                else p1loop rest cur tasks acc
            | none => p1loop rest cur tasks acc
        | none => p1loop rest cur tasks acc

/-- The text-parsing path of `SmartTaskParser.parse` (`1.py` lines 41-82). -/
def SmartTaskParser_textFallback (text : String) : List (String × List String) :=
  p1loop (splitLines (pyStrip text.data)) none [] []

/-- `1.py` lines 24-26: slice from the first `lbrace` to the last `rbrace`
inclusive. -/
def jsonSlice (cs : List Char) : List Char :=
  let start := idxOfC lbrace cs
  let stop := cs.length - 1 - idxOfC rbrace cs.reverse + 1
  (cs.drop start).take (stop - start)

/-- `1.py` lines 30-36: pick `role_tasks`, else `tasks`, else the whole object. -/
def jsonSelect (fields : List (String × Jval)) : Jval :=
  match lookupD "role_tasks" fields with
  | some v => v
  | none =>
      match lookupD "tasks" fields with
      | some v => v
      | none => Jval.jobj fields

/-- The JSON-first strategy of `SmartTaskParser.parse` (`1.py` lines 21-39):
`none` means the strategy fell through (no braces, or `json.loads` raised
`JSONDecodeError`, which the source catches). -/
def jsonBranch (jloads : String → Option (List (String × Jval))) (cs : List Char) :
    Option Jval :=
  if cs.contains lbrace && cs.contains rbrace then
    match jloads (String.mk (jsonSlice cs)) with
    | some fields => some (jsonSelect fields)
    | none => none
  else none

/-- `SmartTaskParser.parse` (`1.py` lines 18-82).  Total: every exception the
body can raise (`json.JSONDecodeError`) is caught by the source itself. -/
def SmartTaskParser_parse (jloads : String → Option (List (String × Jval)))
    (text : String) : Jval :=
  match jsonBranch jloads text.data with
  | some v => v
  | none => mapToJval (SmartTaskParser_textFallback text)

/-- ASCII `[A-Z]`. -/
def isAsciiUpper (c : Char) : Bool := 'A' ≤ c && c ≤ 'Z'

/-- The eleven emoji alternatives `🎨|⚡|🤖|☁️|💾|🎯|🔍|📊|🛡️|📱|🌐` of the
section-split pattern in `2.py` line 16 (also the emoji-substring list of
line 19); `☁️` and `🛡️` are two-code-point sequences. -/
def emojiAlts : List (List Char) :=
  [['🎨'], ['⚡'], ['🤖'], ['☁', '️'], ['💾'], ['🎯'], ['🔍'], ['📊'], ['🛡', '️'], ['📱'], ['🌐']]

/-- The lookahead `(?=(?:🎨|⚡|…|🌐)\s*[A-Z][^:]*:)` of `2.py` line 16:
an emoji alternative, optional whitespace (which may include newlines), an
ASCII capital, then a colon somewhere later ( `[^:]` also matches newlines). -/
def headerLook2 (r : List Char) : Bool :=
  emojiAlts.any (fun alt =>
    alt.isPrefixOf r &&
    (match (r.drop alt.length).dropWhile pyIsSpace with
     | [] => false
     | c :: r' => isAsciiUpper c && r'.contains ':'))

/-- `re.split` of `2.py` line 16: cut at each newline whose right context
matches the header lookahead (the newline is consumed). -/
def splitSecs2 : List Char → List (List Char)
  | [] => [[]]
  | c :: r =>
      if c = '\n' && headerLook2 r then [] :: splitSecs2 r
      else
        match splitSecs2 r with
        | [] => [[c]]
        | s :: ss => (c :: s) :: ss

/-- `2.py` line 31 / `task_agent.py` line 36 then `.strip()`. -/
def cleanTaskEnum (l : List Char) : List Char :=
  pyStrip (stripClassWs inEnumCls l)

/-- `2.py` line 32 then `.strip()`. -/
def cleanTaskDec2 (t : List Char) : List Char :=
  pyStrip (stripClassWs (fun c => decCls2.contains c) t)

/-- The body-line scan of `SmartProjectTaskParser.parse` in `2.py`
(lines 27-35). -/
def collectTasks2 : List (List Char) → List String
  | [] => []
  | line :: rest =>
      let l := pyStrip line
      if l ≠ [] ∧ ¬ startsWithL l ['#'] = true ∧ ¬ startsWithL l ['-', '-', '-'] = true then
        let t := cleanTaskDec2 (cleanTaskEnum l)
        if t ≠ [] ∧ 10 < t.length then String.mk t :: collectTasks2 rest
        else collectTasks2 rest
      else collectTasks2 rest

/-- `2.py` line 24: global decoration-class substitution, drop all colons,
strip. -/
def roleLine2 (l : List Char) : List Char :=
  pyStrip ((subClassWs (fun c => emojiCls.contains c) l).filter (fun c => c ≠ ':'))

/-- One section of `SmartProjectTaskParser.parse` in `2.py` (lines 19-38):
`some (role, tasks)` exactly when the section passes the colon-and-emoji
test and at least two tasks survive cleaning. -/
def sec2entry (sec : List Char) : Option (String × List String) :=
  if sec.contains ':' && emojiAlts.any (fun e => containsSub e sec) then
    let lines := splitLines (pyStrip sec)
    let role := roleLine2 (lines.headD [])
    let tasks := collectTasks2 lines.tail
    if tasks ≠ [] ∧ 2 ≤ tasks.length then some (String.mk role, tasks) else none
  else none

/-- One iteration of a section loop: insert the section's entry when it
produced one. -/
def entryStep (entry : List Char → Option (String × List String))
    (acc : List (String × List String)) (sec : List Char) :
    List (String × List String) :=
  match entry sec with
  | some (r, ts) => dinsert r ts acc
  | none => acc

/-- The section loop: fold the sections into a dict. -/
def entryFold (entry : List Char → Option (String × List String))
    (secs : List (List Char)) : List (String × List String) :=
  secs.foldl (entryStep entry) []

/-- `SmartProjectTaskParser.parse` of `2.py` (lines 12-40). -/
def SmartProjectTaskParser_parse (text : String) : List (String × List String) :=
  entryFold sec2entry (splitSecs2 (pyStrip text.data))

/-- The lookahead `(?=[A-Z][^:]*:)` of `task_agent.py` line 21. -/
def headerLookTA (r : List Char) : Bool :=
  match r with
  | [] => false
  | c :: r' => isAsciiUpper c && r'.contains ':'

/-- `re.split` of `task_agent.py` line 21. -/
def splitSecsTA : List Char → List (List Char)
  | [] => [[]]
  | c :: r =>
      if c = '\n' && headerLookTA r then [] :: splitSecsTA r
      else
        match splitSecsTA r with
        | [] => [[c]]
        | s :: ss => (c :: s) :: ss

/-- The body-line scan of `SmartProjectTaskParser.parse` in `task_agent.py`
(lines 32-39): a single enumerator substitution, no second decoration pass. -/
def collectTasksTA : List (List Char) → List String
  | [] => []
  | line :: rest =>
      let l := pyStrip line
      if l ≠ [] ∧ ¬ startsWithL l ['#'] = true ∧ ¬ startsWithL l ['-', '-', '-'] = true then
        let t := cleanTaskEnum l
        if t ≠ [] ∧ 10 < t.length then String.mk t :: collectTasksTA rest
        else collectTasksTA rest
      else collectTasksTA rest

/-- One section of `SmartProjectTaskParser.parse` in `task_agent.py`
(lines 23-42). -/
def secTAentry (sec : List Char) : Option (String × List String) :=
  if sec.contains ':' then
    let lines := splitLines (pyStrip sec)
    let role := pyStrip ((lines.headD []).filter (fun c => c ≠ ':'))
    let tasks := collectTasksTA lines.tail
    if tasks ≠ [] ∧ 2 ≤ tasks.length then some (String.mk role, tasks) else none
  else none

/-- `SmartProjectTaskParser.parse` of `task_agent.py` (lines 17-44). -/
def SmartProjectTaskParserTA_parse (text : String) : List (String × List String) :=
  entryFold secTAentry (splitSecsTA (pyStrip text.data))

/-- Python `str.lower()` restricted to ASCII (all catalog keywords and the
terms of the forced-inclusion rules are ASCII). -/
def pyLowerChar (c : Char) : Char :=
  match c with
  | 'A' => 'a' | 'B' => 'b' | 'C' => 'c' | 'D' => 'd' | 'E' => 'e' | 'F' => 'f'
  | 'G' => 'g' | 'H' => 'h' | 'I' => 'i' | 'J' => 'j' | 'K' => 'k' | 'L' => 'l'
  | 'M' => 'm' | 'N' => 'n' | 'O' => 'o' | 'P' => 'p' | 'Q' => 'q' | 'R' => 'r'
  | 'S' => 's' | 'T' => 't' | 'U' => 'u' | 'V' => 'v' | 'W' => 'w' | 'X' => 'x'
  | 'Y' => 'y' | 'Z' => 'z' | c => c

/-- Python `description.lower()` as a code-point list. -/
def pyLower (s : String) : List Char := s.data.map pyLowerChar

/-- The `ROLE_KEYWORDS` catalog of `IntelligentRoleSelector` (`2.py`
lines 45-90): role name, keyword list, emoji, in source order. -/
def ROLE_KEYWORDS : List (String × List String × String) :=
  [("Frontend Developer",
    (["ui", "frontend", "react", "vue", "angular", "web interface", "dashboard",
      "user interface", "responsive", "mobile app", "ios", "android"], "🎨")),
   ("Backend Developer",
    (["api", "backend", "server", "database", "authentication", "microservices",
      "rest", "graphql", "node", "python", "java"], "⚡")),
   ("AI/ML Engineer",
    (["ai", "machine learning", "ml", "deep learning", "nlp", "computer vision",
      "neural network", "tensorflow", "pytorch", "model"], "🤖")),
   ("Cloud & DevOps Engineer",
    (["cloud", "aws", "azure", "gcp", "docker", "kubernetes", "ci/cd",
      "deployment", "infrastructure", "devops", "scalability"], "☁️")),
   ("Data Engineer",
    (["data pipeline", "etl", "big data", "data warehouse", "analytics", "kafka",
      "spark", "airflow", "data processing"], "💾")),
   ("UI/UX Designer",
    (["design", "user experience", "ux", "ui design", "wireframe", "prototype",
      "figma", "user journey", "branding"], "🎯")),
   ("QA Engineer",
    (["testing", "qa", "quality assurance", "automation testing", "selenium",
      "test cases", "bug tracking"], "🔍")),
   ("Data Scientist",
    (["data analysis", "statistics", "predictive modeling", "data visualization",
      "insights", "research", "jupyter"], "📊")),
   ("Security Engineer",
    (["security", "cybersecurity", "encryption", "authentication", "compliance",
      "penetration testing", "vulnerability"], "🛡️")),
   ("Mobile Developer",
    (["mobile", "ios", "android", "react native", "flutter", "swift", "kotlin",
      "mobile app"], "📱")),
   ("Blockchain Developer",
    (["blockchain", "cryptocurrency", "smart contracts", "ethereum", "web3",
      "defi", "nft"], "🌐"))]

/-- The "general application" terms of the first forced-inclusion rule
(`2.py` line 105). -/
def generalTerms : List String := ["web", "app", "platform", "system", "full stack"]

/-- The AI-related terms of the second forced-inclusion rule (`2.py` line 109). -/
def aiTerms : List String :=
  ["ai", "artificial intelligence", "machine learning", "ml", "intelligent"]

/-- `IntelligentRoleSelector.select_relevant_roles` (`2.py` lines 92-113). -/
def select_relevant_roles (project_description : String) : List String :=
  let pl := pyLower project_description
  let r1 := (ROLE_KEYWORDS.filter
      (fun rd => rd.2.1.any (fun kw => containsSub kw.data pl))).map (fun rd => rd.1)
  let r2 := ["Frontend Developer", "Backend Developer"].foldl
      (fun acc role =>
        if ¬ acc.contains role = true ∧ generalTerms.any (fun t => containsSub t.data pl) = true
        then acc ++ [role] else acc) r1
  if aiTerms.any (fun t => containsSub t.data pl) then
    if ¬ r2.contains "AI/ML Engineer" = true then r2 ++ ["AI/ML Engineer"] else r2
  else r2

/-- The three templated fallback tasks for one role (`1.py` lines 214-218). -/
def templateTasks (role : String) : List String :=
  ["Set up development environment for " ++ role,
   "Implement core functionality for " ++ role,
   "Test and optimize " ++ role ++ " components"]

/-- The fallback synthesis of `SmartTaskAgent.generate_tasks_from_roles`
(`1.py` lines 212-218): three templated tasks per selected role. -/
def fallbackTasks (selected_roles : List String) : List (String × List String) :=
  selected_roles.foldl (fun acc role => dinsert role (templateTasks role) acc) []

/-- `SmartTaskAgent.generate_tasks_from_roles` (`1.py` lines 166-222).
`llmOutcome = none` models the external generation call raising; the
`Except.error` value models the `ValueError` raised on an empty role list
(outside the `try`, hence propagated). -/
def generate_tasks_from_roles (jloads : String → Option (List (String × Jval)))
    (_project_description : String) (selected_roles : List String)
    (llmOutcome : Option String) : Except String Jval :=
  if selected_roles.isEmpty then
    Except.error "No roles provided. Please provide roles from the role agent."
  else
    match llmOutcome with
    | none => Except.ok (Jval.jobj [("role_tasks", mapToJval (fallbackTasks selected_roles))])
    | some content =>
        let parsed := SmartTaskParser_parse jloads content
        let tasks_dict :=
          match parsed with
          | Jval.jobj fields =>
              match lookupD "role_tasks" fields with
              | some v => v
              | none => Jval.jobj fields
          | v => v
        Except.ok (Jval.jobj [("role_tasks", tasks_dict)])

/-- `CreativeProjectBreakdownAgent.breakdown_project` (`2.py` lines 202-233).
On any exception from the generation call the source prints and returns the
empty dict; otherwise it returns the parse of the returned content. -/
def breakdown_project (project_idea : String) (llmOutcome : Option String) :
    List (String × List String) :=
  let relevant_roles := select_relevant_roles project_idea
  let _roles :=
    if relevant_roles.isEmpty then ["Frontend Developer", "Backend Developer"]
    else relevant_roles
  match llmOutcome with
  | none => []
  | some content => SmartProjectTaskParser_parse content

/-- The canonical breakdown structure produced by `task_agent.py` and
`output_formatter.py`. -/
structure Breakdown where
  project_name : String
  roles_and_responsibilities : List (String × List String)
  total_roles : Nat
  total_tasks : Nat
deriving Repr, DecidableEq

/-- `CreativeProjectTaskAgent.generate_tasks_for_roles`
(`task_agent.py` lines 130-168); the selected roles feed only the prompt.
On an exception from the generation call the source returns the empty
structure with zero counts. -/
def generate_tasks_for_roles (project_description : String)
    (_selected_roles : List String) (llmOutcome : Option String) : Breakdown :=
  match llmOutcome with
  | none => ⟨project_description, [], 0, 0⟩
  | some content =>
      let parsed := SmartProjectTaskParserTA_parse content
      ⟨project_description, parsed, parsed.length, sumLens parsed⟩

/-- ASCII `[a-z]`. -/
def isAsciiLower (c : Char) : Bool := 'a' ≤ c && c ≤ 'z'

/-- Python `str.isupper()` over ASCII casing: at least one cased character
and no lowercase character. -/
def pyIsUpper (s : List Char) : Bool :=
  s.any (fun c => isAsciiLower c || isAsciiUpper c) && s.all (fun c => ¬ isAsciiLower c)

/-- `output_formatter.py` line 64: skip empty lines and lines starting with
`=`, `-` or `.`. -/
def ofSkip (l : List Char) : Bool :=
  l.isEmpty || startsWithL l ['='] || startsWithL l ['-'] || startsWithL l ['.']

/-- `output_formatter.py` line 68: a role header starts and ends with `**`
and is upper case. -/
def isHeaderOF (l : List Char) : Bool :=
  startsWithL l ['*', '*'] && endsWithL l ['*', '*'] && pyIsUpper l

/-- `output_formatter.py` line 79: `re.match(r'^\d+\.\s*(.+)', line)`,
returning `group(1)` on success. -/
def taskMatchOF (l : List Char) : Option (List Char) :=
  let ds := l.takeWhile Char.isDigit
  if ds.isEmpty then none
  else
    match l.drop ds.length with
    | '.' :: rest =>
        let t := rest.dropWhile pyIsSpace
        if t.isEmpty then none else some t
    | _ => none

/-- The line scan of `OutputFormatter._parse_roles_and_tasks`
(`output_formatter.py` lines 51-89). -/
def ofLoop :
    List (List Char) → Option (List Char) → List String →
    List (String × List String) → List (String × List String)
  | [], cur, tasks, acc =>
      match cur with
      | some r => if r ≠ [] ∧ tasks ≠ [] then dinsert (String.mk r) tasks acc else acc
      | none => acc
  | line :: rest, cur, tasks, acc =>
      let l := pyStrip line
      if ofSkip l then ofLoop rest cur tasks acc
      else if isHeaderOF l then
        let acc' :=
          match cur with
          | some r => if r ≠ [] ∧ tasks ≠ [] then dinsert (String.mk r) tasks acc else acc
          | none => acc
        ofLoop rest (some (pyStrip (removeStarStar l))) [] acc'
      else
        match taskMatchOF l with
        | some t0 =>
            match cur with
            | some r =>
                if r ≠ [] then
                  let t := pyStrip t0
                  if 10 < t.length then ofLoop rest cur (tasks ++ [String.mk t]) acc
                  else ofLoop rest cur tasks acc
                else ofLoop rest cur tasks acc
            | none => ofLoop rest cur tasks acc
        | none => ofLoop rest cur tasks acc

/-- The inner scan of `OutputFormatter._extract_project_name`
(`output_formatter.py` lines 44-48): at most three lines after the banner. -/
def epInner : Nat → List (List Char) → Option (List Char)
  | 0, _ => none
  | _, [] => none
  | k + 1, l :: rest =>
      if pyStrip l ≠ [] ∧ ¬ (l.contains '=' || l.contains '-' || l.contains '*') = true then
        let pn := pyStrip l
        if pn ≠ [] ∧ 3 < pn.length then some pn else epInner k rest
      else epInner k rest

/-- The outer scan of `OutputFormatter._extract_project_name`
(`output_formatter.py` lines 40-49). -/
def epOuter : List (List Char) → Option (List Char)
  | [] => none
  | l :: rest =>
      if containsSub "PROJECT BLUEPRINT".data l then
        match epInner 3 rest with
        | some pn => some pn
        | none => epOuter rest
      else epOuter rest

/-- `OutputFormatter.parse_formatted_output` (`output_formatter.py`
lines 8-35): the summary counts are recomputed from the parsed mapping. -/
def parse_formatted_output (formatted_text : String) : Breakdown :=
  let lines := splitLines formatted_text.data
  let project_name :=
    match epOuter lines with
    | some pn => String.mk pn
    | none => "Unknown Project"
  let roles_data := ofLoop lines none [] []
  ⟨project_name, roles_data, roles_data.length, sumLens roles_data⟩

/-- The `role_emojis` dict of `CreativeProjectBreakdownAgent.format_output`
(`2.py` lines 249-261). -/
def role_emojis : List (String × String) :=
  [("Frontend Developer", "🎨"), ("Backend Developer", "⚡"), ("AI/ML Engineer", "🤖"),
   ("Cloud & DevOps Engineer", "☁️"), ("Data Engineer", "💾"), ("UI/UX Designer", "🎯"),
   ("QA Engineer", "🔍"), ("Data Scientist", "📊"), ("Security Engineer", "🛡️"),
   ("Mobile Developer", "📱"), ("Blockchain Developer", "🌐")]

/-- `role_emojis.get(role, '🔸')` (`2.py` line 266). -/
def getRoleEmoji (role : String) : List Char :=
  match lookupD role role_emojis with
  | some e => e.data
  | none => "🔸".data

/-- The `task_emojis` list (`2.py` line 263). -/
def task_emojis : List String := ["▶️", "✨", "🔧", "⭐", "🚀"]

/-- `task_emojis[j] if j < len(task_emojis) else '💡'` (`2.py` line 272). -/
def getTaskEmoji (j : Nat) : List Char :=
  match task_emojis.get? j with
  | some e => e.data
  | none => "💡".data

/-- Python `str.upper()` restricted to ASCII casing. -/
def pyUpperChar (c : Char) : Char :=
  match c with
  | 'a' => 'A' | 'b' => 'B' | 'c' => 'C' | 'd' => 'D' | 'e' => 'E' | 'f' => 'F'
  | 'g' => 'G' | 'h' => 'H' | 'i' => 'I' | 'j' => 'J' | 'k' => 'K' | 'l' => 'L'
  | 'm' => 'M' | 'n' => 'N' | 'o' => 'O' | 'p' => 'P' | 'q' => 'Q' | 'r' => 'R'
  | 's' => 'S' | 't' => 'T' | 'u' => 'U' | 'v' => 'V' | 'w' => 'W' | 'x' => 'X'
  | 'y' => 'Y' | 'z' => 'Z' | c => c

/-- CPython `str.center(width)`: unchanged when already wide enough, else the
left margin is `marg // 2 + (marg & width & 1)`. -/
def pyCenter (width : Nat) (s : List Char) : List Char :=
  if width ≤ s.length then s
  else
    let marg := width - s.length
    let left := marg / 2 + (if marg % 2 = 1 ∧ width % 2 = 1 then 1 else 0)
    List.replicate left ' ' ++ s ++ List.replicate (marg - left) ' '

/-- One decimal digit character. -/
def digitChar (n : Nat) : Char :=
  match n with
  | 0 => '0' | 1 => '1' | 2 => '2' | 3 => '3' | 4 => '4'
  | 5 => '5' | 6 => '6' | 7 => '7' | 8 => '8' | _ => '9'

/-- Decimal digits of `n`, fuelled to stay structurally recursive. -/
def natCharsAux : Nat → Nat → List Char → List Char
  | 0, _, acc => acc
  | fuel + 1, n, acc =>
      if n < 10 then digitChar n :: acc
      else natCharsAux fuel (n / 10) (digitChar (n % 10) :: acc)

/-- Python `str(n)` for a natural number. -/
def natChars (n : Nat) : List Char := natCharsAux (n + 1) n []

/-- `2.py` line 239: `╔` + 66 `═` + `╗` preceded by the template's leading
newline. -/
def hdrTop : List Char := ['\n', '╔'] ++ List.replicate 66 '═' ++ ['╗', '\n']

/-- `2.py` line 240. -/
def hdrTitle : List Char :=
  ['║'] ++ List.replicate 20 ' ' ++ "🚀 PROJECT BLUEPRINT 🚀".data
    ++ List.replicate 23 ' ' ++ ['║', '\n']

/-- `2.py` line 241: `║` + 66 spaces + `║`. -/
def hdrBlank : List Char := ['║'] ++ List.replicate 66 ' ' ++ ['║', '\n']

/-- `2.py` line 243. -/
def hdrBot : List Char := ['╚'] ++ List.replicate 66 '═' ++ ['╝', '\n']

/-- `2.py` lines 244-246: blank line, banner, 70 `═`. -/
def hdrBanner : List Char :=
  "\n🎯 **ROLES & RESPONSIBILITIES BREAKDOWN**\n".data ++ List.replicate 70 '═' ++ ['\n']

/-- `2.py` lines 271-273: one rendered line per task, emoji by position. -/
def taskLinesF : Nat → List String → List Char
  | _, [] => []
  | j, t :: ts => getTaskEmoji j ++ [' '] ++ t.data ++ ['\n'] ++ taskLinesF (j + 1) ts

/-- `2.py` lines 265-276: one role's rendered block (`i` is the 1-based
position, `total` the number of roles; the `┈` separator follows every role
but the last). -/
def roleBlockF (total i : Nat) (role : String) (tasks : List String) : List Char :=
  ['\n'] ++ getRoleEmoji role ++ [' ', '*', '*'] ++ (role.data.map pyUpperChar)
    ++ ['*', '*', '\n']
    ++ List.replicate (role.data.length + 15) '─' ++ ['\n']
    ++ taskLinesF 0 tasks
    ++ (if i < total then ['\n'] ++ List.replicate 70 '┈' ++ ['\n'] else [])

/-- The role loop of `format_output`. -/
def rolesSectionF (total : Nat) : Nat → List (String × List String) → List Char
  | _, [] => []
  | i, (r, ts) :: rest => roleBlockF total i r ts ++ rolesSectionF total (i + 1) rest

/-- `2.py` lines 278-281: the project summary block. -/
def summaryF (d : List (String × List String)) : List Char :=
  "\n\n🎊 **PROJECT SUMMARY**\n📋 Total Roles: ".data ++ natChars d.length
    ++ "\n✅ Total Tasks: ".data ++ natChars (sumLens d)
    ++ "\n🚀 Ready to build something amazing!\n".data

/-- `CreativeProjectBreakdownAgent.format_output` (`2.py` lines 235-283). -/
def format_output (tasks_dict : List (String × List String)) (project_name : String) :
    String :=
  String.mk (hdrTop ++ hdrTitle ++ hdrBlank
    ++ (['║', ' ', ' '] ++ pyCenter 60 project_name.data ++ [' ', ' ', '║', '\n'])
    ++ hdrBot ++ hdrBanner
    ++ rolesSectionF tasks_dict.length 1 tasks_dict
    ++ summaryF tasks_dict)

/-- State of the line-start scanner: `atWs` while only whitespace has been
seen on the current line, `inLine` after its first non-whitespace character. -/
inductive LS where
  | atWs : LS
  | inLine : LS
deriving DecidableEq, Repr

/-- Scanner deciding that no line of a character stream has `*` as its first
non-whitespace character (`none` = some line does). -/
def nslRun : List Char → LS → Option LS
  | [], s => some s
  | c :: r, LS.atWs =>
      if c = '\n' then nslRun r LS.atWs
      else if pyIsSpace c then nslRun r LS.atWs
      else if c = '*' then none
      else nslRun r LS.inLine
  | c :: r, LS.inLine =>
      if c = '\n' then nslRun r LS.atWs else nslRun r LS.inLine

/-- An oracle modelling `json.loads` failing on every input
(`json.JSONDecodeError`). -/
def jloads0 : String → Option (List (String × Jval)) := fun _ => none

/-- A concrete parsed JSON object holding a `role_tasks` field. -/
def fieldsC5 : List (String × Jval) :=
  [("role_tasks",
    Jval.jobj [("Backend Developer",
      Jval.jarr [Jval.jstr "Design schema", Jval.jstr "Build auth API"])])]

/-- An oracle modelling `json.loads` succeeding with `fieldsC5`. -/
def jloadsC5 : String → Option (List (String × Jval)) := fun _ => some fieldsC5

/-- The `role_tasks` payload of an orchestrator result. -/
def roleTasksOf (res : Except String Jval) : Jval :=
  match res with
  | Except.ok (Jval.jobj fields) => (lookupD "role_tasks" fields).getD Jval.jnull
  | _ => Jval.jnull

/-- Number of roles of a JSON role→tasks mapping. -/
def jvalRoleCount : Jval → Nat
  | Jval.jobj fields => fields.length
  | _ => 0

/-- The project name used by the `C9` counterexample: it embeds, via newline
characters, a line that the output formatter recognises as a role header and
a line it recognises as a task. -/
def c9name : String :=
  "\n**AB**\n1. aaaaaaaaaaaaaaaaaaaaaaaaaaaaaaaaaaaaaaaaaaaaaaaaaaaaaaaaa"

theorem lookupD_dinsert {α : Type} (d : List (String × α)) (k k' : String) (v : α) :
    lookupD k' (dinsert k v d) = if k' = k then some v else lookupD k' d := by
  induction d with
  | nil => simp [dinsert, lookupD]
  | cons p rest ih =>
      obtain ⟨k₀, v₀⟩ := p
      by_cases h1 : k₀ = k
      · subst h1
        by_cases h2 : k' = k₀ <;> simp [dinsert, lookupD, h2]
      · by_cases h2 : k' = k₀
        · subst h2
          simp [dinsert, lookupD, h1]
        · simp [dinsert, lookupD, h1, h2, ih]

theorem mem_dinsert {α : Type} (p : String × α) (k : String) (v : α)
    (d : List (String × α)) : p ∈ dinsert k v d → p = (k, v) ∨ p ∈ d := by
  induction d with
  | nil => intro h; simp [dinsert] at h; exact Or.inl h
  | cons q rest ih =>
      obtain ⟨k₀, v₀⟩ := q
      intro h
      simp only [dinsert] at h
      split at h
      · rcases List.mem_cons.mp h with h1 | h1
        · exact Or.inl h1
        · exact Or.inr (List.mem_cons_of_mem _ h1)
      · rcases List.mem_cons.mp h with h1 | h1
        · exact Or.inr (by simp [h1])
        · rcases ih h1 with h2 | h2
          · exact Or.inl h2
          · exact Or.inr (List.mem_cons_of_mem _ h2)

theorem lookupD_fallbackTasks (roles : List String) (r : String) :
    lookupD r (fallbackTasks roles) =
      if r ∈ roles then some (templateTasks r) else none := by
  suffices h : ∀ acc : List (String × List String),
      lookupD r (roles.foldl (fun acc role => dinsert role (templateTasks role) acc) acc) =
        if r ∈ roles then some (templateTasks r) else lookupD r acc by
    simpa [fallbackTasks, lookupD] using h []
  induction roles with
  | nil => intro acc; simp
  | cons a rest ih =>
      intro acc
      simp only [List.foldl_cons]
      rw [ih]
      by_cases h1 : r ∈ rest
      · simp [h1, List.mem_cons]
      · by_cases h2 : r = a
        · subst h2; simp [h1, lookupD_dinsert]
        · simp [h1, h2, lookupD_dinsert, List.mem_cons]

theorem fallbackTasks_tmpl (roles : List String) :
    ∀ p ∈ fallbackTasks roles, p.2 = templateTasks p.1 := by
  suffices h : ∀ acc : List (String × List String),
      (∀ p ∈ acc, p.2 = templateTasks p.1) →
      ∀ p ∈ roles.foldl (fun acc role => dinsert role (templateTasks role) acc) acc,
        p.2 = templateTasks p.1 by
    exact h [] (by simp)
  induction roles with
  | nil => intro acc hacc; exact hacc
  | cons a rest ih =>
      intro acc hacc
      simp only [List.foldl_cons]
      refine ih _ ?_
      intro p hp
      rcases mem_dinsert p a (templateTasks a) acc hp with h1 | h1
      · subst h1; rfl
      · exact hacc p h1

theorem fallbackTasks_ne_nil (roles : List String) (h : roles ≠ []) :
    fallbackTasks roles ≠ [] := by
  cases roles with
  | nil => exact absurd rfl h
  | cons a rest =>
      intro hnil
      have h2 := lookupD_fallbackTasks (a :: rest) a
      rw [hnil] at h2
      simp [lookupD, List.mem_cons] at h2

/-- C1 (corrected): when the external generation call raises, the
`SmartTaskAgent` orchestrator returns the non-empty three-task-per-role
fallback; but when the call succeeds and the parser yields an empty mapping
it returns an empty `role_tasks` mapping, and
`CreativeProjectBreakdownAgent.breakdown_project` returns the empty mapping
both when the call raises and when the parser yields an empty mapping. -/
theorem c1_theorem :
    (∀ (jloads : String → Option (List (String × Jval))) (desc : String)
        (roles : List String), roles ≠ [] →
        generate_tasks_from_roles jloads desc roles none =
          Except.ok (Jval.jobj [("role_tasks", mapToJval (fallbackTasks roles))]) ∧
        fallbackTasks roles ≠ [] ∧
        (∀ p ∈ fallbackTasks roles, 1 ≤ p.2.length)) ∧
    (∀ (jloads : String → Option (List (String × Jval))) (desc : String)
        (roles : List String) (content : String), roles ≠ [] →
        SmartTaskParser_parse jloads content = Jval.jobj [] →
        generate_tasks_from_roles jloads desc roles (some content) =
          Except.ok (Jval.jobj [("role_tasks", Jval.jobj [])])) ∧
    (∀ idea : String, breakdown_project idea none = []) ∧
    (∀ (idea content : String), SmartProjectTaskParser_parse content = [] →
        breakdown_project idea (some content) = []) := by
  refine ⟨?_, ?_, ?_, ?_⟩
  · intro jloads desc roles hroles
    refine ⟨?_, fallbackTasks_ne_nil roles hroles, ?_⟩
    · cases roles with
      | nil => exact absurd rfl hroles
      | cons a rest => rfl
    · intro p hp
      have h := fallbackTasks_tmpl roles p hp
      rw [h]
      simp [templateTasks]
  · intro jloads desc roles content hroles hempty
    cases roles with
    | nil => exact absurd rfl hroles
    | cons a rest =>
        simp only [generate_tasks_from_roles, List.isEmpty_cons, hempty]
        simp [lookupD]
  · intro idea; rfl
  · intro idea content hempty
    simp only [breakdown_project, hempty]

/-- C1 witness: the fallback branch of the corrected claim at a concrete
non-empty role list. -/
theorem c1_witness :
    (["Frontend Developer"] : List String) ≠ [] ∧
    generate_tasks_from_roles jloads0 "a web app" ["Frontend Developer"] none =
      Except.ok (Jval.jobj
        [("role_tasks", mapToJval (fallbackTasks ["Frontend Developer"]))]) :=
  ⟨by decide, (c1_theorem.1 jloads0 "a web app" ["Frontend Developer"] (by decide)).1⟩

/-- C1 counterexample: with the external call succeeding on a content the
parser maps to the empty mapping, `generate_tasks_from_roles` returns a
breakdown with zero roles, and `breakdown_project` returns the empty mapping
when the call raises — refuting the never-empty guarantee as claimed. -/
theorem c1_counterexample :
    ¬ (1 ≤ jvalRoleCount (roleTasksOf
        (generate_tasks_from_roles jloads0 "a web app" ["Frontend Developer"] (some "")))) ∧
    ¬ (1 ≤ (breakdown_project "a web app" none).length) := by
  exact ⟨by decide, by decide⟩

/-- C2 (corrected): when the external call raises,
`SmartTaskAgent.generate_tasks_from_roles` returns a breakdown whose role
set is exactly the selected roles, each carrying exactly the three templated
tasks; `CreativeProjectTaskAgent.generate_tasks_for_roles` instead returns
an empty breakdown with zero counts on failure. -/
theorem c2_theorem :
    (∀ (jloads : String → Option (List (String × Jval))) (desc : String)
        (roles : List String), roles ≠ [] →
        generate_tasks_from_roles jloads desc roles none =
          Except.ok (Jval.jobj [("role_tasks", mapToJval (fallbackTasks roles))]) ∧
        (∀ r : String, lookupD r (fallbackTasks roles) =
          if r ∈ roles then some (templateTasks r) else none) ∧
        (∀ p ∈ fallbackTasks roles, p.2 = templateTasks p.1 ∧ p.2.length = 3)) ∧
    (∀ (desc : String) (roles : List String),
        generate_tasks_for_roles desc roles none = ⟨desc, [], 0, 0⟩) := by
  constructor
  · intro jloads desc roles hroles
    refine ⟨?_, fun r => lookupD_fallbackTasks roles r, ?_⟩
    · cases roles with
      | nil => exact absurd rfl hroles
      | cons a rest => rfl
    · intro p hp
      have h := fallbackTasks_tmpl roles p hp
      exact ⟨h, by rw [h]; simp [templateTasks]⟩
  · intro desc roles; rfl

/-- C2 witness: the corrected claim applied at a concrete non-empty role
list. -/
theorem c2_witness :
    (["Frontend Developer"] : List String) ≠ [] ∧
    lookupD "Frontend Developer" (fallbackTasks ["Frontend Developer"]) =
      some (templateTasks "Frontend Developer") := by
  refine ⟨by decide, ?_⟩
  have h := ((c2_theorem.1 jloads0 "a web app" ["Frontend Developer"]
    (by decide)).2.1) "Frontend Developer"
  simpa using h

/-- C2 counterexample: `generate_tasks_for_roles` with the external call
raising drops the selected role entirely instead of giving it three
templated tasks. -/
theorem c2_counterexample :
    lookupD "Frontend Developer"
        ((generate_tasks_for_roles "p" ["Frontend Developer"] none).roles_and_responsibilities)
      = none ∧
    (generate_tasks_for_roles "p" ["Frontend Developer"] none).roles_and_responsibilities
      = [] :=
  ⟨rfl, rfl⟩

/-- C8 (confirmed): both breakdown producers recompute
`summary.total_roles` as the number of mapping keys and
`summary.total_tasks` as the sum of the task-list lengths. -/
theorem c8_theorem :
    (∀ text : String,
        (parse_formatted_output text).total_roles =
          (parse_formatted_output text).roles_and_responsibilities.length ∧
        (parse_formatted_output text).total_tasks =
          sumLens (parse_formatted_output text).roles_and_responsibilities) ∧
    (∀ (desc : String) (roles : List String) (outcome : Option String),
        (generate_tasks_for_roles desc roles outcome).total_roles =
          (generate_tasks_for_roles desc roles outcome).roles_and_responsibilities.length ∧
        (generate_tasks_for_roles desc roles outcome).total_tasks =
          sumLens (generate_tasks_for_roles desc roles outcome).roles_and_responsibilities) := by
  constructor
  · intro text; exact ⟨rfl, rfl⟩
  · intro desc roles outcome
    cases outcome with
    | none => exact ⟨rfl, rfl⟩
    | some content => exact ⟨rfl, rfl⟩

/-- C4 (code bug): at the scenario-A input both text parsers strip only the
first character of the `1.` enumerator — the character class of the task
regex matches a single character — leaving a `. ` prefix on every task, so
the produced mapping differs from the specified one exactly in these
prefixes. -/
theorem c4_theorem :
    (∀ jloads : String → Option (List (String × Jval)),
        SmartTaskParser_parse jloads
            "Frontend Developer:\n1. Build login page\n2. Add responsive nav" =
          mapToJval [("Frontend Developer",
            [". Build login page", ". Add responsive nav"])]) ∧
    SmartProjectTaskParserTA_parse
        "Frontend Developer:\n1. Build login page\n2. Add responsive nav" =
      [("Frontend Developer", [". Build login page", ". Add responsive nav"])] ∧
    SmartTaskParser_textFallback
        "Frontend Developer:\n1. Build login page\n2. Add responsive nav" ≠
      [("Frontend Developer", ["Build login page", "Add responsive nav"])] := by
  exact ⟨fun jloads => rfl, rfl, by decide⟩

/-- C5 (confirmed): whenever the brace-delimited slice parses as a JSON
object holding a `role_tasks` field (or, failing that, a `tasks` field),
`SmartTaskParser.parse` returns that field's value — the line-classification
fallback is never consulted. -/
theorem c5_theorem (jloads : String → Option (List (String × Jval)))
    (text : String) (fields : List (String × Jval)) (v : Jval)
    (h1 : text.data.contains lbrace = true)
    (h2 : text.data.contains rbrace = true)
    (h3 : jloads (String.mk (jsonSlice text.data)) = some fields)
    (h4 : lookupD "role_tasks" fields = some v ∨
          (lookupD "role_tasks" fields = none ∧ lookupD "tasks" fields = some v)) :
    SmartTaskParser_parse jloads text = v := by
  have h1' : lbrace ∈ text.data := by simpa using h1
  have h2' : rbrace ∈ text.data := by simpa using h2
  have hb : jsonBranch jloads text.data = some (jsonSelect fields) := by
    simp [jsonBranch, h1', h2', h3]
  have hsel : jsonSelect fields = v := by
    rcases h4 with h | ⟨h, h'⟩
    · simp [jsonSelect, h]
    · simp [jsonSelect, h, h']
  simp [SmartTaskParser_parse, hb, hsel]

/-- C5 witness: a concrete text with prose around a brace-delimited region
that the oracle parses to an object with a `role_tasks` field. -/
theorem c5_witness :
    ("prose \x7btext ignored\x7d more prose").data.contains lbrace = true ∧
    jloadsC5 (String.mk (jsonSlice ("prose \x7btext ignored\x7d more prose").data))
      = some fieldsC5 ∧
    SmartTaskParser_parse jloadsC5 "prose \x7btext ignored\x7d more prose" =
      Jval.jobj [("Backend Developer",
        Jval.jarr [Jval.jstr "Design schema", Jval.jstr "Build auth API"])] := by
  refine ⟨by decide, rfl, ?_⟩
  exact c5_theorem jloadsC5 _ fieldsC5 _ (by decide) (by decide) rfl (Or.inl rfl)

theorem entryFold_acc_none (entry : List Char → Option (String × List String)) :
    ∀ (secs : List (List Char)) (acc : List (String × List String)),
      (∀ sec ∈ secs, entry sec = none) →
      secs.foldl (entryStep entry) acc = acc := by
  intro secs
  induction secs with
  | nil => intro acc _; rfl
  | cons sec rest ih =>
      intro acc h
      have hs : entry sec = none := h sec (by simp)
      simp only [List.foldl_cons, entryStep, hs]
      exact ih acc (fun s hsm => h s (List.mem_cons_of_mem _ hsm))

/-- C6 (confirmed): the parse operations are total — the embedding returns a
value for every input string, the only exception the source body can raise
being caught there — and when no strategy recognises any role section they
return the empty mapping rather than an error. -/
theorem c6_theorem :
    (∀ (jloads : String → Option (List (String × Jval))) (text : String),
        jsonBranch jloads text.data = none →
        SmartTaskParser_textFallback text = [] →
        SmartTaskParser_parse jloads text = mapToJval []) ∧
    (∀ text : String,
        (∀ sec ∈ splitSecs2 (pyStrip text.data), sec2entry sec = none) →
        SmartProjectTaskParser_parse text = []) ∧
    (∀ text : String,
        (∀ sec ∈ splitSecsTA (pyStrip text.data), secTAentry sec = none) →
        SmartProjectTaskParserTA_parse text = []) := by
  refine ⟨?_, ?_, ?_⟩
  · intro jloads text h1 h2
    simp [SmartTaskParser_parse, h1, h2]
  · intro text h
    exact entryFold_acc_none sec2entry _ [] h
  · intro text h
    exact entryFold_acc_none secTAentry _ [] h

/-- C6 witness: a plain text that no strategy recognises yields the empty
mapping from all three parsers. -/
theorem c6_witness :
    jsonBranch jloads0 ("hello world").data = none ∧
    SmartTaskParser_textFallback "hello world" = [] ∧
    SmartTaskParser_parse jloads0 "hello world" = mapToJval [] ∧
    SmartProjectTaskParser_parse "hello world" = [] ∧
    SmartProjectTaskParserTA_parse "hello world" = [] := by
  refine ⟨rfl, rfl, ?_, ?_, ?_⟩
  · exact (c6_theorem.1 jloads0 "hello world" rfl rfl)
  · exact (c6_theorem.2.1 "hello world" (by decide))
  · exact (c6_theorem.2.2 "hello world" (by decide))

theorem sec2entry_two_le (sec : List Char) (r : String) (ts : List String) :
    sec2entry sec = some (r, ts) → 2 ≤ ts.length := by
  intro h
  simp only [sec2entry] at h
  split at h
  · split at h
    · rename_i hcond
      cases h
      exact hcond.2
    · simp at h
  · simp at h

theorem secTAentry_two_le (sec : List Char) (r : String) (ts : List String) :
    secTAentry sec = some (r, ts) → 2 ≤ ts.length := by
  intro h
  simp only [secTAentry] at h
  split at h
  · split at h
    · rename_i hcond
      cases h
      exact hcond.2
    · simp at h
  · simp at h

theorem entryFold_inv {P : String × List String → Prop}
    (entry : List Char → Option (String × List String))
    (h : ∀ sec r ts, entry sec = some (r, ts) → P (r, ts)) :
    ∀ (secs : List (List Char)) (acc : List (String × List String)),
      (∀ p ∈ acc, P p) → ∀ p ∈ secs.foldl (entryStep entry) acc, P p := by
  intro secs
  induction secs with
  | nil => intro acc hacc p hp; exact hacc p hp
  | cons sec rest ih =>
      intro acc hacc p hp
      simp only [List.foldl_cons] at hp
      refine ih (entryStep entry acc sec) ?_ p hp
      intro q hq
      cases he : entry sec with
      | none =>
          simp only [entryStep, he] at hq
          exact hacc q hq
      | some rt =>
          obtain ⟨r, ts⟩ := rt
          simp only [entryStep, he] at hq
          rcases mem_dinsert q r ts acc hq with h1 | h1
          · subst h1; exact h sec r ts he
          · exact hacc q h1

theorem p1loop_pos :
    ∀ (lines : List (List Char)) (cur : Option (List Char)) (tasks : List String)
      (acc : List (String × List String)),
      (∀ p ∈ acc, 1 ≤ p.2.length) →
      ∀ p ∈ p1loop lines cur tasks acc, 1 ≤ p.2.length := by
  intro lines
  induction lines with
  | nil =>
      intro cur tasks acc hacc p hp
      cases cur with
      | none => exact hacc p (by simpa [p1loop] using hp)
      | some r =>
          simp only [p1loop] at hp
          split at hp
          · rename_i hcond
            rcases mem_dinsert p _ _ _ hp with h1 | h1
            · subst h1
              exact List.length_pos.mpr hcond.2
            · exact hacc p h1
          · exact hacc p hp
  | cons line rest ih =>
      intro cur tasks acc hacc p hp
      simp only [p1loop] at hp
      split at hp
      · exact ih _ _ _ hacc p hp
      · split at hp
        · refine ih _ _ _ ?_ p hp
          intro q hq
          split at hq
          · split at hq
            · rename_i hcond
              rcases mem_dinsert q _ _ _ hq with h1 | h1
              · subst h1
                exact List.length_pos.mpr hcond.2
              · exact hacc q h1
            · exact hacc q hq
          · exact hacc q hq
        · split at hp
          · split at hp
            · split at hp
              · split at hp
                · exact ih _ _ _ hacc p hp
                · exact ih _ _ _ hacc p hp
              · exact ih _ _ _ hacc p hp
            · exact ih _ _ _ hacc p hp
          · exact ih _ _ _ hacc p hp

/-- C3 (corrected): the section-split parsers (in `2.py` and
`task_agent.py`) retain a role only when at least two tasks survive
cleaning, so no retained role ever has fewer than two tasks; the
line-classification parser of `1.py`, however, retains every role with at
least one surviving task, so there a section yielding exactly one surviving
task is kept, not dropped. -/
theorem c3_theorem :
    (∀ (text : String) (p : String × List String),
        p ∈ SmartProjectTaskParser_parse text → 2 ≤ p.2.length) ∧
    (∀ (text : String) (p : String × List String),
        p ∈ SmartProjectTaskParserTA_parse text → 2 ≤ p.2.length) ∧
    (∀ (text : String) (p : String × List String),
        p ∈ SmartTaskParser_textFallback text → 1 ≤ p.2.length) := by
  refine ⟨?_, ?_, ?_⟩
  · intro text p hp
    simp only [SmartProjectTaskParser_parse, entryFold] at hp
    exact entryFold_inv (P := fun q => 2 ≤ q.2.length) sec2entry
      sec2entry_two_le _ [] (by simp) p hp
  · intro text p hp
    simp only [SmartProjectTaskParserTA_parse, entryFold] at hp
    exact entryFold_inv (P := fun q => 2 ≤ q.2.length) secTAentry
      secTAentry_two_le _ [] (by simp) p hp
  · intro text p hp
    simp only [SmartTaskParser_textFallback] at hp
    exact p1loop_pos _ none [] [] (by simp) p hp

/-- C3 witness: the corrected claim applied to a concrete section-split
parse result and its two-task entry. -/
theorem c3_witness :
    (("Frontend Developer",
        [". Build an amazing login page now", ". Add a responsive navigation bar"]) ∈
      SmartProjectTaskParser_parse
        "🎨 Frontend Developer:\n1. Build an amazing login page now\n2. Add a responsive navigation bar") ∧
    2 ≤ (("Frontend Developer",
        [". Build an amazing login page now", ". Add a responsive navigation bar"])
          : String × List String).2.length :=
  ⟨by decide, c3_theorem.1
    "🎨 Frontend Developer:\n1. Build an amazing login page now\n2. Add a responsive navigation bar"
    _ (by decide)⟩

/-- C3 counterexample: a role section yielding exactly one surviving task is
present in the mapping returned by `SmartTaskParser.parse`'s
line-classification path, refuting the drop rule as claimed. -/
theorem c3_counterexample :
    SmartTaskParser_textFallback
        "Frontend Developer:\n1. Build the entire authentication system" =
      [("Frontend Developer", [". Build the entire authentication system"])] ∧
    lookupD "Frontend Developer"
        (SmartTaskParser_textFallback
          "Frontend Developer:\n1. Build the entire authentication system") ≠ none := by
  exact ⟨rfl, by decide⟩

theorem mem_addstep (x role : String) (acc : List String) (C : Prop) [Decidable C]
    (h : x ∈ acc) :
    x ∈ (if ¬ acc.contains role = true ∧ C then acc ++ [role] else acc) := by
  split
  · exact List.mem_append_left _ h
  · exact h

theorem self_mem_addstep (role : String) (acc : List String) (C : Prop) [Decidable C]
    (hC : C) :
    role ∈ (if ¬ acc.contains role = true ∧ C then acc ++ [role] else acc) := by
  by_cases hc : acc.contains role = true
  · have hm : role ∈ acc := List.mem_of_elem_eq_true hc
    split
    · exact List.mem_append_left _ hm
    · exact hm
  · rw [if_pos ⟨hc, hC⟩]
    exact List.mem_append_right _ (by simp)

theorem mem_ai_wrap (x : String) (acc : List String) (C : Prop) [Decidable C]
    (h : x ∈ acc) :
    x ∈ (if C then
          (if ¬ acc.contains "AI/ML Engineer" = true
           then acc ++ ["AI/ML Engineer"] else acc)
         else acc) := by
  split
  · split
    · exact List.mem_append_left _ h
    · exact h
  · exact h

theorem ai_mem_wrap (acc : List String) (C : Prop) [Decidable C] (hC : C) :
    "AI/ML Engineer" ∈ (if C then
          (if ¬ acc.contains "AI/ML Engineer" = true
           then acc ++ ["AI/ML Engineer"] else acc)
         else acc) := by
  rw [if_pos hC]
  by_cases hc : acc.contains "AI/ML Engineer" = true
  · rw [if_neg (by simpa using hc)]
    exact List.mem_of_elem_eq_true hc
  · rw [if_pos hc]
    exact List.mem_append_right _ (by simp)

theorem mem_select_of_kw (desc : String) (role : String) (kws : List String)
    (em : String) (hmem : (role, (kws, em)) ∈ ROLE_KEYWORDS)
    (hkw : ∃ kw ∈ kws, containsSub kw.data (pyLower desc) = true) :
    role ∈ select_relevant_roles desc := by
  have hpred : (fun rd : String × List String × String =>
      rd.2.1.any (fun kw => containsSub kw.data (pyLower desc))) (role, (kws, em)) = true := by
    obtain ⟨kw, hkwm, hkwc⟩ := hkw
    exact List.any_eq_true.mpr ⟨kw, hkwm, hkwc⟩
  have hr1 : role ∈ (ROLE_KEYWORDS.filter (fun rd =>
      rd.2.1.any (fun kw => containsSub kw.data (pyLower desc)))).map (fun rd => rd.1) :=
    List.mem_map.mpr ⟨(role, (kws, em)), List.mem_filter.mpr ⟨hmem, hpred⟩, rfl⟩
  simp only [select_relevant_roles, List.foldl_cons, List.foldl_nil]
  exact mem_ai_wrap _ _ _ (mem_addstep _ _ _ _ (mem_addstep _ _ _ _ hr1))

theorem select_forced_core (desc : String)
    (hg : ∃ t ∈ generalTerms, containsSub t.data (pyLower desc) = true) :
    "Frontend Developer" ∈ select_relevant_roles desc ∧
    "Backend Developer" ∈ select_relevant_roles desc := by
  have hany : generalTerms.any (fun t => containsSub t.data (pyLower desc)) = true := by
    obtain ⟨t, htm, htc⟩ := hg
    exact List.any_eq_true.mpr ⟨t, htm, htc⟩
  constructor
  · simp only [select_relevant_roles, List.foldl_cons, List.foldl_nil]
    exact mem_ai_wrap _ _ _
      (mem_addstep _ _ _ _ (self_mem_addstep _ _ _ (by exact hany)))
  · simp only [select_relevant_roles, List.foldl_cons, List.foldl_nil]
    exact mem_ai_wrap _ _ _ (self_mem_addstep _ _ _ (by exact hany))

theorem select_forced_ai (desc : String)
    (ha : ∃ t ∈ aiTerms, containsSub t.data (pyLower desc) = true) :
    "AI/ML Engineer" ∈ select_relevant_roles desc := by
  have hany : aiTerms.any (fun t => containsSub t.data (pyLower desc)) = true := by
    obtain ⟨t, htm, htc⟩ := ha
    exact List.any_eq_true.mpr ⟨t, htm, htc⟩
  simp only [select_relevant_roles, List.foldl_cons, List.foldl_nil]
  exact ai_mem_wrap _ _ (by exact hany)

/-- C7 (confirmed): `select_relevant_roles` includes a role whenever one of
its catalog keywords occurs in the lower-cased description, force-includes
the front-end and back-end pair on any general-application term and the
AI/ML role on any AI term; and on the scenario-C description the selection
includes the mobile role, the front-end role, and the AI/ML role. -/
theorem c7_theorem :
    (∀ (desc role : String) (kws : List String) (em : String),
        (role, (kws, em)) ∈ ROLE_KEYWORDS →
        (∃ kw ∈ kws, containsSub kw.data (pyLower desc) = true) →
        role ∈ select_relevant_roles desc) ∧
    (∀ desc : String,
        (∃ t ∈ generalTerms, containsSub t.data (pyLower desc) = true) →
        "Frontend Developer" ∈ select_relevant_roles desc ∧
        "Backend Developer" ∈ select_relevant_roles desc) ∧
    (∀ desc : String,
        (∃ t ∈ aiTerms, containsSub t.data (pyLower desc) = true) →
        "AI/ML Engineer" ∈ select_relevant_roles desc) ∧
    "Mobile Developer" ∈
      select_relevant_roles "a mobile fitness app with AI recommendations" ∧
    "Frontend Developer" ∈
      select_relevant_roles "a mobile fitness app with AI recommendations" ∧
    "AI/ML Engineer" ∈
      select_relevant_roles "a mobile fitness app with AI recommendations" := by
  refine ⟨mem_select_of_kw, select_forced_core, select_forced_ai, ?_, ?_, ?_⟩
  · decide
  · decide
  · decide

/-- C7 witness: the keyword rule and the forced-inclusion rules applied at
concrete descriptions. -/
theorem c7_witness :
    (∃ t ∈ generalTerms,
      containsSub t.data (pyLower "a web app for planning") = true) ∧
    "Backend Developer" ∈ select_relevant_roles "a web app for planning" :=
  ⟨⟨"web", by decide, by decide⟩,
   (c7_theorem.2.1 "a web app for planning" ⟨"web", by decide, by decide⟩).2⟩

theorem containsSub_iff_infixL (n : List Char) :
    ∀ h : List Char, containsSub n h = true ↔ n <:+: h := by
  intro h
  induction h with
  | nil => simp [containsSub, List.isEmpty_iff, List.infix_nil]
  | cons c r ih =>
      simp only [containsSub, Bool.or_eq_true, List.isPrefixOf_iff_prefix, ih,
        List.infix_cons_iff]

theorem infix_cons_of {t l : List Char} (c : Char) (h : t <:+: l) : t <:+: c :: l := by
  obtain ⟨u, v, huv⟩ := h
  exact ⟨c :: u, v, by simp [List.cons_append, huv]⟩

theorem splitSecs2_ne_nil : ∀ cs : List Char, splitSecs2 cs ≠ [] := by
  intro cs
  induction cs with
  | nil => simp [splitSecs2]
  | cons c r ih =>
      simp only [splitSecs2]
      split
      · simp
      · split
        · simp
        · simp

theorem splitSecs2_struct :
    ∀ (cs s : List Char) (ss : List (List Char)),
      splitSecs2 cs = s :: ss → s <+: cs ∧ ∀ t ∈ ss, t <:+: cs := by
  intro cs
  induction cs with
  | nil =>
      intro s ss h
      simp only [splitSecs2, List.cons.injEq] at h
      obtain ⟨h1, h2⟩ := h
      subst h1; subst h2
      exact ⟨List.nil_prefix, by simp⟩
  | cons c r ih =>
      intro s ss h
      simp only [splitSecs2] at h
      split at h
      · injection h with h1 h2
        subst h1; subst h2
        refine ⟨List.nil_prefix, ?_⟩
        intro t ht
        cases hr : splitSecs2 r with
        | nil => exact absurd hr (splitSecs2_ne_nil r)
        | cons s' ss' =>
            rw [hr] at ht
            obtain ⟨hpre, htail⟩ := ih s' ss' hr
            rcases List.mem_cons.mp ht with h3 | h3
            · subst h3
              exact infix_cons_of c hpre.isInfix
            · exact infix_cons_of c (htail t h3)
      · cases hr : splitSecs2 r with
        | nil => exact absurd hr (splitSecs2_ne_nil r)
        | cons s' ss' =>
            rw [hr] at h
            injection h with h1 h2
            subst h1; subst h2
            obtain ⟨hpre, htail⟩ := ih s' ss' hr
            refine ⟨?_, ?_⟩
            · exact List.cons_prefix_cons.mpr ⟨rfl, hpre⟩
            · intro t ht
              exact infix_cons_of c (htail t ht)

theorem mem_splitSecs2_infixL (cs sec : List Char) (h : sec ∈ splitSecs2 cs) :
    sec <:+: cs := by
  cases hr : splitSecs2 cs with
  | nil => exact absurd hr (splitSecs2_ne_nil cs)
  | cons s ss =>
      rw [hr] at h
      obtain ⟨hpre, htail⟩ := splitSecs2_struct cs s ss hr
      rcases List.mem_cons.mp h with h1 | h1
      · subst h1; exact hpre.isInfix
      · exact htail sec h1

theorem pyStrip_infixL (s : List Char) : pyStrip s <:+: s := by
  have h1 : pyRStrip (pyLStrip s) <+: pyLStrip s := by
    apply List.reverse_suffix.mp
    have h2 := List.dropWhile_suffix (l := (pyLStrip s).reverse) pyIsSpace
    simpa [pyRStrip] using h2
  have h3 : pyLStrip s <:+ s := List.dropWhile_suffix pyIsSpace
  exact (List.IsInfix.trans h1.isInfix h3.isInfix)

/-- C10 (confirmed): on any input containing none of the eleven header
emojis (as the exact code-point sequences the source tests for, `☁️` and
`🛡️` including their variation selector), `SmartProjectTaskParser.parse` of
`2.py` returns the empty mapping, whatever headers or numbered lists the
text contains. -/
theorem c10_theorem (text : String)
    (h : ∀ e ∈ emojiAlts, containsSub e text.data = false) :
    SmartProjectTaskParser_parse text = [] := by
  simp only [SmartProjectTaskParser_parse, entryFold]
  refine entryFold_acc_none sec2entry _ [] ?_
  intro sec hsec
  have hinf : sec <:+: text.data :=
    List.IsInfix.trans (mem_splitSecs2_infixL _ sec hsec) (pyStrip_infixL text.data)
  have hany : emojiAlts.any (fun e => containsSub e sec) = false := by
    rw [List.any_eq_false]
    intro e he hcon
    have htxt : containsSub e text.data = true :=
      (containsSub_iff_infixL e text.data).mpr
        (List.IsInfix.trans ((containsSub_iff_infixL e sec).mp hcon) hinf)
    rw [h e he] at htxt
    exact Bool.false_ne_true htxt
  simp [sec2entry, hany]

/-- C10 witness: a decorated, well-formed but emoji-free text yields the
empty mapping. -/
theorem c10_witness :
    (∀ e ∈ emojiAlts, containsSub e
      ("Frontend Developer:\n1. Build an awesome login page\n2. Add responsive navigation").data
        = false) ∧
    SmartProjectTaskParser_parse
      "Frontend Developer:\n1. Build an awesome login page\n2. Add responsive navigation" = [] :=
  ⟨by decide,
   c10_theorem
     "Frontend Developer:\n1. Build an awesome login page\n2. Add responsive navigation"
     (by decide)⟩

theorem nsl_append : ∀ (xs ys : List Char) (s : LS),
    nslRun (xs ++ ys) s = (nslRun xs s).bind (fun s' => nslRun ys s') := by
  intro xs
  induction xs with
  | nil => intro ys s; rfl
  | cons c r ih =>
      intro ys s
      cases s with
      | atWs =>
          simp only [List.cons_append, nslRun]
          split
          · exact ih ys LS.atWs
          · split
            · exact ih ys LS.atWs
            · split
              · rfl
              · exact ih ys LS.inLine
      | inLine =>
          simp only [List.cons_append, nslRun]
          split
          · exact ih ys LS.atWs
          · exact ih ys LS.inLine

theorem nsl_noNL_inLine : ∀ xs : List Char, '\n' ∉ xs →
    nslRun xs LS.inLine = some LS.inLine := by
  intro xs
  induction xs with
  | nil => intro _; rfl
  | cons c r ih =>
      intro h
      have hc : ¬ c = '\n' := fun hh => h (hh ▸ List.mem_cons_self c r)
      have hr : '\n' ∉ r := fun hh => h (List.mem_cons_of_mem c hh)
      simp [nslRun, hc, ih hr]

theorem splitLines_ne_nil : ∀ cs : List Char, splitLines cs ≠ [] := by
  intro cs
  induction cs with
  | nil => simp [splitLines]
  | cons c r ih =>
      simp only [splitLines]
      split
      · simp
      · split
        · simp
        · simp

theorem strip_ws_cons (l : List Char) {c : Char} (h : pyIsSpace c = true) :
    pyStrip (c :: l) = pyStrip l := by
  simp [pyStrip, pyLStrip, List.dropWhile_cons, h]

theorem strip_cons (m : List Char) {c : Char} (hws : pyIsSpace c = false) :
    pyStrip (c :: m) = c :: pyRStrip m := by
  simp only [pyStrip, pyLStrip, pyRStrip, List.dropWhile_cons, hws]
  simp only [Bool.false_eq_true, if_false, List.reverse_cons, List.dropWhile_append]
  split
  · rename_i hemp
    rw [List.isEmpty_iff] at hemp
    simp [List.dropWhile_cons, hws, hemp]
  · simp

theorem okL_of_head {c : Char} (m : List Char) (hws : pyIsSpace c = false)
    (hstar : c ≠ '*') :
    startsWithL (pyStrip (c :: m)) ['*', '*'] = false := by
  rw [strip_cons m hws]
  have hbe : (('*' : Char) == c) = false :=
    beq_eq_false_iff_ne.mpr fun hh => hstar hh.symm
  simp [startsWithL, List.isPrefixOf, hbe]

theorem nsl_lines :
    ∀ cs : List Char,
      (∀ s', nslRun cs LS.atWs = some s' →
        ∀ l ∈ splitLines cs, startsWithL (pyStrip l) ['*', '*'] = false) ∧
      (∀ s', nslRun cs LS.inLine = some s' →
        ∀ l ∈ (splitLines cs).tail, startsWithL (pyStrip l) ['*', '*'] = false) := by
  intro cs
  induction cs with
  | nil =>
      constructor
      · intro s' _ l hl
        simp [splitLines] at hl
        subst hl
        decide
      · intro s' _ l hl
        simp [splitLines] at hl
  | cons c r ih =>
      constructor
      · intro s' hrun l hl
        by_cases hnl : c = '\n'
        · subst hnl
          have hrun' : nslRun r LS.atWs = some s' := by simpa [nslRun] using hrun
          simp only [splitLines, if_pos rfl] at hl
          rcases List.mem_cons.mp hl with h1 | h1
          · subst h1; decide
          · exact ih.1 s' hrun' l h1
        · cases hsp : splitLines r with
          | nil => exact absurd hsp (splitLines_ne_nil r)
          | cons s0 ss0 =>
              simp only [splitLines, hnl, if_false, hsp] at hl
              by_cases hws : pyIsSpace c = true
              · have hrun' : nslRun r LS.atWs = some s' := by
                  simpa [nslRun, hnl, hws] using hrun
                rcases List.mem_cons.mp hl with h1 | h1
                · subst h1
                  rw [strip_ws_cons s0 hws]
                  exact ih.1 s' hrun' s0 (hsp ▸ List.mem_cons_self s0 ss0)
                · exact ih.1 s' hrun' l (hsp ▸ List.mem_cons_of_mem s0 h1)
              · have hws' : pyIsSpace c = false := by
                  cases hb : pyIsSpace c
                  · rfl
                  · exact absurd hb hws
                by_cases hstar : c = '*'
                · exfalso
                  subst hstar
                  simp [nslRun, hnl, hws'] at hrun
                · have hrun' : nslRun r LS.inLine = some s' := by
                    simpa [nslRun, hnl, hws', hstar] using hrun
                  rcases List.mem_cons.mp hl with h1 | h1
                  · subst h1
                    exact okL_of_head s0 hws' hstar
                  · have := ih.2 s' hrun'
                    rw [hsp] at this
                    exact this l h1
      · intro s' hrun l hl
        by_cases hnl : c = '\n'
        · subst hnl
          have hrun' : nslRun r LS.atWs = some s' := by simpa [nslRun] using hrun
          simp only [splitLines, if_pos rfl] at hl
          exact ih.1 s' hrun' l hl
        · cases hsp : splitLines r with
          | nil => exact absurd hsp (splitLines_ne_nil r)
          | cons s0 ss0 =>
              simp only [splitLines, hnl, if_false, hsp] at hl
              have hrun' : nslRun r LS.inLine = some s' := by
                simpa [nslRun, hnl] using hrun
              have := ih.2 s' hrun'
              rw [hsp] at this
              exact this l hl

theorem ofLoop_no_header :
    ∀ (lines : List (List Char)) (tasks : List String)
      (acc : List (String × List String)),
      (∀ l ∈ lines, startsWithL (pyStrip l) ['*', '*'] = false) →
      ofLoop lines none tasks acc = acc := by
  intro lines
  induction lines with
  | nil => intro tasks acc _; rfl
  | cons line rest ih =>
      intro tasks acc h
      have hline := h line (by simp)
      have hrest : ∀ l ∈ rest, startsWithL (pyStrip l) ['*', '*'] = false :=
        fun l hl => h l (List.mem_cons_of_mem _ hl)
      simp only [ofLoop]
      split
      · exact ih tasks acc hrest
      · split
        · rename_i hhdr
          exfalso
          simp only [isHeaderOF, Bool.and_eq_true] at hhdr
          rw [hline] at hhdr
          simp at hhdr
        · split
          · exact ih tasks acc hrest
          · exact ih tasks acc hrest

theorem lookupD_mem_values {α : Type} (k : String) (l : List (String × α)) (v : α)
    (h : lookupD k l = some v) : v ∈ l.map (fun p => p.2) := by
  induction l with
  | nil => simp [lookupD] at h
  | cons p rest ih =>
      obtain ⟨k0, v0⟩ := p
      simp only [lookupD] at h
      split at h
      · cases h; simp
      · exact List.mem_cons_of_mem _ (ih h)

theorem nsl_roleEmoji (role : String) :
    nslRun (getRoleEmoji role) LS.atWs = some LS.inLine := by
  unfold getRoleEmoji
  cases h : lookupD role role_emojis with
  | none => decide
  | some e =>
      have hv := lookupD_mem_values role role_emojis e h
      simp [role_emojis] at hv
      rcases hv with h1 | h1 | h1 | h1 | h1 | h1 | h1 | h1 | h1 | h1 | h1 <;>
        subst h1 <;> decide

theorem nsl_taskEmoji (j : Nat) :
    nslRun (getTaskEmoji j) LS.atWs = some LS.inLine := by
  unfold getTaskEmoji
  cases h : task_emojis.get? j with
  | none => decide
  | some e =>
      have hv : e ∈ task_emojis := List.get?_mem h
      simp [task_emojis] at hv
      rcases hv with h1 | h1 | h1 | h1 | h1 <;> subst h1 <;> decide

theorem noNL_upperChar {c : Char} (h : c ≠ '\n') : pyUpperChar c ≠ '\n' := by
  intro hcontra
  unfold pyUpperChar at hcontra
  split at hcontra
  all_goals first
    | exact absurd hcontra (by decide)
    | exact h hcontra

theorem noNL_upperMap (l : List Char) (h : '\n' ∉ l) : '\n' ∉ l.map pyUpperChar := by
  intro hmem
  obtain ⟨a, ha, hae⟩ := List.mem_map.mp hmem
  exact noNL_upperChar (fun hh => h (hh ▸ ha)) hae

theorem noNL_digitChar (k : Nat) : digitChar k ≠ '\n' := by
  unfold digitChar
  split <;> decide

theorem noNL_natCharsAux :
    ∀ (fuel n : Nat) (acc : List Char), '\n' ∉ acc → '\n' ∉ natCharsAux fuel n acc := by
  intro fuel
  induction fuel with
  | zero => intro n acc h; exact h
  | succ f ih =>
      intro n acc h
      simp only [natCharsAux]
      split
      · intro hmem
        rcases List.mem_cons.mp hmem with h1 | h1
        · exact noNL_digitChar n h1.symm
        · exact h h1
      · refine ih _ _ ?_
        intro hmem
        rcases List.mem_cons.mp hmem with h1 | h1
        · exact noNL_digitChar _ h1.symm
        · exact h h1

theorem noNL_natChars (n : Nat) : '\n' ∉ natChars n :=
  noNL_natCharsAux _ _ _ (by simp)

theorem noNL_center (name : List Char) (h : '\n' ∉ name) : '\n' ∉ pyCenter 60 name := by
  intro hmem
  simp only [pyCenter] at hmem
  split at hmem
  · exact h hmem
  · simp only [List.mem_append, List.mem_replicate] at hmem
    rcases hmem with (h1 | h1) | h1
    · exact absurd h1.2 (by decide)
    · exact h h1
    · exact absurd h1.2 (by decide)

theorem nsl_rep (c : Char) (hnl : ¬ c = '\n') (hws : pyIsSpace c = false)
    (hst : ¬ c = '*') (n : Nat) :
    nslRun (List.replicate (n + 1) c) LS.atWs = some LS.inLine := by
  rw [List.replicate_succ]
  have hrest : nslRun (List.replicate n c) LS.inLine = some LS.inLine :=
    nsl_noNL_inLine _ (fun hmem => hnl (List.eq_of_mem_replicate hmem).symm)
  simp [nslRun, hnl, hws, hst, hrest]


theorem nsl_taskLines :
    ∀ (ts : List String) (j : Nat), (∀ t ∈ ts, '\n' ∉ t.data) →
      nslRun (taskLinesF j ts) LS.atWs = some LS.atWs := by
  intro ts
  induction ts with
  | nil => intro j _; rfl
  | cons t rest ih =>
      intro j h
      have h1 := nsl_noNL_inLine t.data (h t (by simp))
      have h2 := ih (j + 1) (fun t' ht' => h t' (List.mem_cons_of_mem _ ht'))
      have he := nsl_taskEmoji j
      simp only [taskLinesF]
      simp [nsl_append, he, h1, h2, nslRun]

theorem nsl_roleBlock (total i : Nat) (role : String) (tasks : List String)
    (hr : '\n' ∉ role.data) (ht : ∀ t ∈ tasks, '\n' ∉ t.data) :
    nslRun (roleBlockF total i role tasks) LS.atWs = some LS.atWs := by
  have h15eq : role.data.length + 15 = (role.data.length + 14) + 1 := by omega
  have h15 : nslRun (List.replicate (role.data.length + 15) '─') LS.atWs
      = some LS.inLine := by
    rw [h15eq]
    exact nsl_rep '─' (by decide) (by decide) (by decide) _
  have hup := nsl_noNL_inLine _ (noNL_upperMap role.data hr)
  have htl := nsl_taskLines tasks 0 ht
  have hsep : nslRun
      (if i < total then ['\n'] ++ List.replicate 70 '┈' ++ ['\n'] else [])
      LS.atWs = some LS.atWs := by
    split
    · decide
    · rfl
  have e1 : nslRun ['\n'] LS.atWs = some LS.atWs := by decide
  have e2 : nslRun [' ', '*', '*'] LS.inLine = some LS.inLine := by decide
  have e3 : nslRun ['*', '*', '\n'] LS.inLine = some LS.atWs := by decide
  have e4 : nslRun ['\n'] LS.inLine = some LS.atWs := by decide
  simp only [roleBlockF, nsl_append, e1, nsl_roleEmoji, e2, hup, e3, h15, e4, htl,
    hsep, Option.some_bind]

theorem nsl_rolesSection (total : Nat) :
    ∀ (d : List (String × List String)) (i : Nat),
      (∀ p ∈ d, '\n' ∉ p.1.data ∧ ∀ t ∈ p.2, '\n' ∉ t.data) →
      nslRun (rolesSectionF total i d) LS.atWs = some LS.atWs := by
  intro d
  induction d with
  | nil => intro i _; rfl
  | cons p rest ih =>
      intro i h
      obtain ⟨r, ts⟩ := p
      have hp := h (r, ts) (by simp)
      have hb := nsl_roleBlock total i r ts hp.1 hp.2
      have hrest := ih (i + 1) (fun q hq => h q (List.mem_cons_of_mem _ hq))
      simp only [rolesSectionF, nsl_append, hb, hrest, Option.some_bind]

theorem nsl_summary (d : List (String × List String)) :
    nslRun (summaryF d) LS.atWs = some LS.atWs := by
  have h1 := nsl_noNL_inLine _ (noNL_natChars d.length)
  have h2 := nsl_noNL_inLine _ (noNL_natChars (sumLens d))
  have hA : nslRun ("\n\n🎊 **PROJECT SUMMARY**\n📋 Total Roles: ").data LS.atWs
      = some LS.inLine := by decide
  have hB : nslRun ("\n✅ Total Tasks: ").data LS.inLine = some LS.inLine := by decide
  have hC : nslRun ("\n🚀 Ready to build something amazing!\n").data LS.inLine
      = some LS.atWs := by decide
  simp only [summaryF, nsl_append, hA, hB, hC, h1, h2, Option.some_bind]

theorem nsl_format (d : List (String × List String)) (name : String)
    (hd : ∀ p ∈ d, '\n' ∉ p.1.data ∧ ∀ t ∈ p.2, '\n' ∉ t.data)
    (hn : '\n' ∉ name.data) :
    nslRun (format_output d name).data LS.atWs = some LS.atWs := by
  have hT : nslRun hdrTop LS.atWs = some LS.atWs := by decide
  have hTi : nslRun hdrTitle LS.atWs = some LS.atWs := by decide
  have hBl : nslRun hdrBlank LS.atWs = some LS.atWs := by decide
  have hP1 : nslRun ['║', ' ', ' '] LS.atWs = some LS.inLine := by decide
  have hC := nsl_noNL_inLine _ (noNL_center name.data hn)
  have hP2 : nslRun [' ', ' ', '║', '\n'] LS.inLine = some LS.atWs := by decide
  have hBo : nslRun hdrBot LS.atWs = some LS.atWs := by decide
  have hBa : nslRun hdrBanner LS.atWs = some LS.atWs := by decide
  have hR := nsl_rolesSection d.length d 1 hd
  have hS := nsl_summary d
  simp only [format_output, nsl_append, hT, hTi, hBl, hP1, hC, hP2, hBo, hBa, hR, hS,
    Option.some_bind]

/-- C9 (corrected): when the role names, the task strings, and also the
project name contain no newline character, parsing the rendered output
recovers nothing — the renderer emits emoji-prefixed headers and task lines
that the formatter's `**…**` and `digits.` patterns never match.  The
newline restriction on the project name is necessary: a name containing
newlines can inject a recognisable header line into the render (see the
counterexample). -/
theorem c9_theorem (d : List (String × List String)) (name : String)
    (hd : ∀ p ∈ d, '\n' ∉ p.1.data ∧ ∀ t ∈ p.2, '\n' ∉ t.data)
    (hn : '\n' ∉ name.data) :
    (parse_formatted_output (format_output d name)).roles_and_responsibilities = [] ∧
    (parse_formatted_output (format_output d name)).total_roles = 0 ∧
    (parse_formatted_output (format_output d name)).total_tasks = 0 := by
  have hnsl := nsl_format d name hd hn
  have hlines := (nsl_lines _).1 _ hnsl
  have hroles : ofLoop (splitLines (format_output d name).data) none [] [] = [] :=
    ofLoop_no_header _ [] [] hlines
  refine ⟨?_, ?_, ?_⟩ <;> simp [parse_formatted_output, hroles, sumLens]

/-- C9 witness: a concrete newline-free mapping and project name round-trip
to the empty mapping with zero counts. -/
theorem c9_witness :
    (∀ p ∈ ([("Frontend Developer", ["Build the login page"])] :
        List (String × List String)), '\n' ∉ p.1.data ∧ ∀ t ∈ p.2, '\n' ∉ t.data) ∧
    '\n' ∉ ("Fitness App").data ∧
    (parse_formatted_output (format_output
      [("Frontend Developer", ["Build the login page"])] "Fitness App")).roles_and_responsibilities
      = [] :=
  ⟨by decide, by decide, (c9_theorem _ _ (by decide) (by decide)).1⟩

/-- C9 counterexample: with a project name containing newlines — allowed by
the claim as stated — the rendered output parses back to one role and one
task, so the round trip does not recover the empty mapping. -/
theorem c9_counterexample :
    (parse_formatted_output (format_output [] c9name)).total_roles = 1 ∧
    ¬ ((parse_formatted_output (format_output [] c9name)).total_roles = 0) := by
  constructor
  · decide
  · decide
